import Mathlib

/-
Verification development for the bayc-eth-sum repository.

The relevant source is `src/pages/api/get-saved-results.ts` (the "optimized"
pipeline variant) together with the earlier variant in `src/unnamed/part_002`.
Pure computations are embedded directly; network calls (provider, Etherscan,
The Graph, multicall) are abstracted as oracle functions passed as arguments,
so that every code path of the embedded functions is driven by explicit data.
`ethers.BigNumber` values (wei balances and totals) are modelled as `Nat`,
which is exact arbitrary-precision arithmetic, as `BigNumber` is.
-/

namespace BaycEthSum

/-! ### Shared basic definitions -/

/-- The null/burn address constant `0x0000000000000000000000000000000000000000`
from `getHoldersFromTokenTransfers`. -/
def zeroAddress : String := "0x0000000000000000000000000000000000000000"

/-- Model of JavaScript `String.prototype.toLowerCase` (ASCII case folding,
which is all that occurs for hex addresses): lowercase every character. -/
def toLowerString (s : String) : String := String.mk (s.data.map Char.toLower)

/-- `Set.prototype.add` on a JavaScript insertion-ordered set, modelled as a
duplicate-free list in insertion order. -/
def setAdd (s : List String) (x : String) : List String :=
  if x ∈ s then s else s ++ [x]

/-- `Set.prototype.delete`. -/
def setDelete (s : List String) (x : String) : List String :=
  s.filter (fun y => decide (y ≠ x))

/-- Lookup in a JavaScript `Map`/object modelled as an insertion-ordered
association list. -/
def alookup {β : Type} : List (String × β) → String → Option β
  | [], _ => none
  | (k', v) :: r, k => if k' = k then some v else alookup r k

/-- Apply `f` to the value stored at key `k` (in-place update of a `Map`
entry; positions of entries are preserved, as in JavaScript). -/
def aupdate {β : Type} (m : List (String × β)) (k : String) (f : β → β) :
    List (String × β) :=
  m.map (fun p => if p.1 = k then (p.1, f p.2) else p)

/-- `Map.prototype.delete` on key `k`. -/
def aremove {β : Type} (m : List (String × β)) (k : String) : List (String × β) :=
  m.filter (fun p => decide (p.1 ≠ k))

/-- `map[k] = v` on a JavaScript object/`Map`: existing keys are updated in
place, new keys are appended at the end. -/
def upsert {β : Type} (m : List (String × β)) (k : String) (v : β) :
    List (String × β) :=
  if (alookup m k).isSome then
    m.map (fun p => if p.1 = k then (p.1, v) else p)
  else
    m ++ [(k, v)]

/-- `sum.add(balance)` folded over the balances array with initial value
`BigNumber.from(0)` — the reduce-summation of `getTotalEthValueOfHolders`
(step 4). -/
def totalWeiReduce (balances : List Nat) : Nat :=
  balances.foldl (fun sum balance => sum + balance) 0

/-! ### Adaptive GraphQL batch size (`updateOptimalGraphQLBatchSize`) -/

/-- Embedding of `updateOptimalGraphQLBatchSize` (source lines 188-200).
`optimal` is the module-level `optimalGraphQLBatchSize` before the call and
the returned value is its state after the call.  `Math.floor(x * 1.25)` and
`Math.floor(x * 0.75)` are exact on these magnitudes and equal `x * 5 / 4`
and `x * 3 / 4` in integer arithmetic. -/
def updateOptimalGraphQLBatchSize (success : Bool) (currentSize optimal : Nat) : Nat :=
  if success then
    if currentSize < optimal then min 10000 (currentSize * 5 / 4) else optimal
  else
    max 500 (currentSize * 3 / 4)

/-- `getSuggestedGraphQLBatchSize` just reads the module-level state. -/
def getSuggestedGraphQLBatchSize (optimal : Nat) : Nat := optimal

/-! ### Chain block resolver: `binarySearchBlock` (source lines 521-582)

`provider.getBlock(mid)` is abstracted as an oracle `Nat → BlockFetch`:
`found ts` is a block object with timestamp `ts`, `missing` is a `null`
return, `failed` is a thrown provider error.  Block heights and the
`low`/`high` cursors are natural numbers; the only place the JavaScript
code can produce `-1` is `high = mid - 1` with `mid = 0`, after which the
loop exits — with saturating `Nat` subtraction the next iteration instead
hits the `mid === lastMid` guard and returns the same `result`, so the
returned value is identical. -/

/-- Outcome of `provider.getBlock` for one block height. -/
inductive BlockFetch where
  | found (timestamp : Nat)
  | missing
  | failed
deriving DecidableEq

/-- The `while (low <= high && iterations < 20)` loop of `binarySearchBlock`.
State: remaining iterations (`fuel`), `low`, `high`, `result`, `lastMid`,
`consecutiveErrors`. -/
def binarySearchLoop (getBlock : Nat → BlockFetch) (targetTimestamp : Nat) :
    Nat → Nat → Nat → Nat → Nat → Nat → Nat
  | 0, _, _, result, _, _ => result
  | fuel + 1, low, high, result, lastMid, errs =>
    if low ≤ high then
      let mid := (low + high) / 2
      if mid = lastMid then result
      else
        match getBlock mid with
        | .found ts =>
          if ts < targetTimestamp then
            binarySearchLoop getBlock targetTimestamp fuel (mid + 1) high result mid 0
          else
            binarySearchLoop getBlock targetTimestamp fuel low (mid - 1) mid mid 0
        | .missing =>
          if 3 ≤ errs + 1 then result
          else binarySearchLoop getBlock targetTimestamp fuel low (mid - 1) result mid (errs + 1)
        | .failed =>
          if 3 ≤ errs + 1 then result
          else if mid = low then
            binarySearchLoop getBlock targetTimestamp fuel (low + 1) high result mid (errs + 1)
          else
            binarySearchLoop getBlock targetTimestamp fuel low (mid - 1) result mid (errs + 1)
    else result

/-- `binarySearchBlock(low, high, targetTimestamp)`: initial `result = high`,
`iterations = 0` (20 available), `lastMid = 0`, `consecutiveErrors = 0`. -/
def binarySearchBlock (getBlock : Nat → BlockFetch) (low high targetTimestamp : Nat) : Nat :=
  binarySearchLoop getBlock targetTimestamp 20 low high high 0 0

/-- An always-successful provider derived from a timestamp table. -/
def foundOracle (ts : Nat → Nat) : Nat → BlockFetch := fun b => .found (ts b)

/-! ### Ownership set builder (source lines 589-958)

`getBAYCHoldersAtBlock` first tries the cursor-paginated GraphQL query
(primary path, then a smaller-page retry path); on any failure it falls
back to `getHoldersFromTokenTransfers`, which replays Etherscan transfer
pages.  Network responses are supplied as oracle data.  The caches only
replay previously computed holder arrays; the embedding below is the
cache-miss (fresh computation) path, lines 688-871. -/

/-- A `{ id, owner { id } }` row returned by the subgraph. -/
structure Token where
  id : String
  owner : String
deriving DecidableEq

/-- Outcome of one GraphQL page request: a token page, a response carrying a
GraphQL `errors` field, or a thrown network error. -/
inductive GraphResp where
  | ok (tokens : List Token)
  | gqlError
  | netError
deriving DecidableEq

/-- An Etherscan `tokennfttx` row (fields `blockNumber`, `tokenID`, `from`,
`to`). -/
structure Transfer where
  blockNumber : Nat
  tokenID : String
  fromAddress : String
  toAddress : String
deriving DecidableEq

/-- Outcome of one Etherscan transfer-page request: an OK page, a non-`'1'`
status response, or a thrown network error. -/
inductive EtherscanResp where
  | ok (transfers : List Transfer)
  | badStatus
  | thrown
deriving DecidableEq

/-- Source lines 924-935: unless `from` is the null address (a mint),
delete the token from `from`'s set, and drop `from`'s map entry when its
set becomes empty. -/
def removeFromSender (m : List (String × List String)) (fromA tokenID : String) :
    List (String × List String) :=
  if fromA ≠ zeroAddress then
    if (alookup m fromA).isSome then
      let m' := aupdate m fromA (fun s => setDelete s tokenID)
      if (alookup m' fromA).getD [] = [] then aremove m' fromA else m'
    else m
  else m

/-- Source lines 937-941: create an empty set for `to` when absent, then add
the token to `to`'s set. -/
def addToRecipient (m : List (String × List String)) (toA tokenID : String) :
    List (String × List String) :=
  aupdate (if (alookup m toA).isSome then m else m ++ [(toA, [])]) toA
    (fun s => setAdd s tokenID)

/-- The per-transfer body of the replay loop in
`getHoldersFromTokenTransfers` (source lines 913-942). -/
def processTransfer (m : List (String × List String)) (t : Transfer) :
    List (String × List String) :=
  addToRecipient (removeFromSender m (toLowerString t.fromAddress) t.tokenID)
    (toLowerString t.toAddress) t.tokenID

/-- The ownership-map/latest-recipient correspondence maintained by the
transfer replay on consistent histories: non-null entries have nonempty
token sets, and a token is in the set of a non-null address exactly when
that address is the token's latest recorded recipient. -/
def ReplayInvariant (m : List (String × List String))
    (seen : List (String × String)) : Prop :=
  (∀ o s, o ≠ zeroAddress → alookup m o = some s → s ≠ []) ∧
  (∀ tid o, o ≠ zeroAddress →
    (tid ∈ (alookup m o).getD [] ↔ alookup seen tid = some o))

/-- One page of the replay `for` loop: process transfers in order, stopping
at the first transfer past the target block (`hasMoreData = false`);
returns the updated map and the `hasMoreData` flag. -/
def replayPage (blockNumber : Nat) :
    List (String × List String) → List Transfer →
    List (String × List String) × Bool
  | m, [] => (m, true)
  | m, t :: rest =>
    if blockNumber < t.blockNumber then (m, false)
    else replayPage blockNumber (processTransfer m t) rest

/-- Flag-free version of `replayPage`, for reasoning. -/
def replayList (blockNumber : Nat) :
    List (String × List String) → List Transfer → List (String × List String)
  | m, [] => m
  | m, t :: rest =>
    if blockNumber < t.blockNumber then m
    else replayList blockNumber (processTransfer m t) rest

/-- The `while (hasMoreData && page <= 5)` loop of
`getHoldersFromTokenTransfers` (`fuel` counts the remaining pages of the
five allowed; `page` is the page number requested from Etherscan).
`none` means an Etherscan request threw, which the surrounding `catch`
turns into the demo sample holders. -/
def transfersLoop (fetch : Nat → EtherscanResp) (blockNumber : Nat) :
    List (String × List String) → Nat → Nat →
    Option (List (String × List String))
  | m, 0, _ => some m
  | m, fuel + 1, page =>
    match fetch page with
    | .thrown => none
    | .badStatus => some m
    | .ok transfers =>
      if transfers.length = 0 then some m
      else
        let pr := replayPage blockNumber m transfers
        if pr.2 then transfersLoop fetch blockNumber pr.1 fuel (page + 1)
        else some pr.1

/-- The `FALLBACK_DEMO_DATA.sampleHolders` constant. -/
def sampleHolders : List String :=
  ["0x7Be8076f4EA4A4AD08075C2508e481d6C946D12b",
   "0xb88F61E6FbdA83fbfffAbE364112137480398018",
   "0x0315FA3813Ff4999C264641B202d0D2B21df139C",
   "0xA858DDc0445d8131daC4d1DE01f834ffcbA52Ef1",
   "0x1b523DC1cB8B17B0170aa9234cA1CFF3E1Ea36bF"]

/-- Embedding of `getHoldersFromTokenTransfers` (source lines 876-958): at
most five Etherscan pages are replayed; the returned holders are the map
keys other than the null address; a thrown request is caught and answered
with the demo sample holders. -/
def getHoldersFromTokenTransfers (fetch : Nat → EtherscanResp) (blockNumber : Nat) :
    List String :=
  match transfersLoop fetch blockNumber [] 5 1 with
  | some m => (m.map Prod.fst).filter (fun a => decide (a ≠ zeroAddress))
  | none => sampleHolders

/-- `tokens.forEach(t => holders.add(t.owner.id.toLowerCase()))`. -/
def addOwners (holders : List String) (tokens : List Token) : List String :=
  tokens.foldl (fun hs t => setAdd hs (toLowerString t.owner)) holders

/-- `lastId = tokens[tokens.length - 1].id`. -/
def lastTokenId (tokens : List Token) (lastId : String) : String :=
  match tokens.getLast? with
  | some t => t.id
  | none => lastId

/-- The follow-up pagination loop of the primary GraphQL path (source lines
745-773): GraphQL errors `break` and keep the accumulated owners, a thrown
request (`none`) propagates to the smaller-page retry path, an empty or
short page terminates.  `fuel` bounds the number of pages examined. -/
def followLoop (fetch : String → Nat → GraphResp) (pageSize : Nat) :
    Nat → String → List String → Option (List String)
  | 0, _, holders => some holders
  | fuel + 1, lastId, holders =>
    match fetch lastId pageSize with
    | .gqlError => some holders
    | .netError => none
    | .ok tokens =>
      if tokens.length = 0 then some holders
      else
        let holders' := addOwners holders tokens
        if tokens.length < pageSize then some holders'
        else followLoop fetch pageSize fuel (lastTokenId tokens lastId) holders'

/-- The smaller-page retry loop (source lines 793-826): here GraphQL errors
throw (`none`), which escapes `getBAYCHoldersAtBlock`'s `try` and triggers
the transfer-history fallback. -/
def fallbackLoop (fetch : String → Nat → GraphResp) (pageSize : Nat) :
    Nat → String → List String → Option (List String)
  | 0, _, holders => some holders
  | fuel + 1, lastId, holders =>
    match fetch lastId pageSize with
    | .gqlError => none
    | .netError => none
    | .ok tokens =>
      if tokens.length = 0 then some holders
      else
        let holders' := addOwners holders tokens
        if tokens.length < pageSize then some holders'
        else fallbackLoop fetch pageSize fuel (lastTokenId tokens lastId) holders'

/-- The GraphQL part of `getBAYCHoldersAtBlock` (source lines 688-830): a
first request with the adaptive page size; on success, continued
pagination; on failure, the smaller-page retry path with
`FALLBACK_PAGE_SIZE = min(1000, max(500, floor(PAGE_SIZE / 2)))`.
`none` means both GraphQL paths failed. -/
def graphHolders (fetch : String → Nat → GraphResp) (pageSize fuel : Nat) :
    Option (List String) :=
  let fallbackPageSize := min 1000 (max 500 (pageSize / 2))
  match fetch "" pageSize with
  | .gqlError => fallbackLoop fetch fallbackPageSize fuel "" []
  | .netError => fallbackLoop fetch fallbackPageSize fuel "" []
  | .ok tokens =>
    let holders := addOwners [] tokens
    if tokens.length < pageSize then some holders
    else
      match followLoop fetch pageSize fuel (lastTokenId tokens "") holders with
      | some holders' => some holders'
      | none => fallbackLoop fetch fallbackPageSize fuel "" []

/-- Embedding of the cache-miss path of `getBAYCHoldersAtBlock` (source
lines 688-871): the GraphQL paths, then on their failure the
transfer-history fallback (whose own failure is answered with the demo
sample holders, never an error). -/
def getBAYCHoldersAtBlock (fetch : String → Nat → GraphResp)
    (tfetch : Nat → EtherscanResp) (pageSize fuel blockNumber : Nat) : List String :=
  match graphHolders fetch pageSize fuel with
  | some holders => holders
  | none => getHoldersFromTokenTransfers tfetch blockNumber

/-- Concatenation of Etherscan pages `page, page+1, …, page+fuel-1`. -/
def joinPages (pages : Nat → List Transfer) : Nat → Nat → List Transfer
  | _, 0 => []
  | page, fuel + 1 => pages page ++ joinPages pages (page + 1) fuel

/-- Record `o` as the latest recipient of token `tid`. -/
def upsertOwner (seen : List (String × String)) (tid o : String) :
    List (String × String) :=
  upsert seen tid o

/-- Latest recipient per token id after a list of transfers, starting from
`seen`. -/
def ownersAfter (seen : List (String × String)) :
    List Transfer → List (String × String)
  | [] => seen
  | t :: rest => ownersAfter (upsertOwner seen t.tokenID (toLowerString t.toAddress)) rest

/-- Consistency of an ERC-721 transfer history relative to the latest
recipients `seen` so far: every transfer is sent by the current owner of
its token (or is a mint from the null address when the token has no owner
yet). -/
def wellFormedFrom (seen : List (String × String)) : List Transfer → Bool
  | [] => true
  | t :: rest =>
    decide (toLowerString t.fromAddress = (alookup seen t.tokenID).getD zeroAddress) &&
      wellFormedFrom (upsertOwner seen t.tokenID (toLowerString t.toAddress)) rest

/-- A consistent ERC-721 transfer history. -/
def WellFormedHistory (l : List Transfer) : Prop :=
  wellFormedFrom [] l = true

/-- The latest `to` address (lowercased) of token `tid` in history `l`. -/
def lastToOf (l : List Transfer) (tid : String) : Option String :=
  ((l.filter (fun t => decide (t.tokenID = tid))).getLast?).map
    (fun t => toLowerString t.toAddress)

/-- Modelled from the spec ("Second fallback — transfer-log replay:
reconstruct current ownership by replaying all mint/transfer events up to
the target block and tracking the latest `to` address per token id"): the
holder set obtained by replaying the complete history `l` up to `block` —
every address other than the null address that is the latest recipient of
some token.  This is the specification-side definition that the code is
compared against. -/
def specReplayHolders (l : List Transfer) (block : Nat) : List String :=
  let h := l.filter (fun t => decide (t.blockNumber ≤ block))
  let tids := (h.map Transfer.tokenID).dedup
  ((tids.filterMap (fun tid => lastToOf h tid)).dedup).filter
    (fun a => decide (a ≠ zeroAddress))

/-! ### Balance aggregator (source lines 964-1121)

`getEthBalancesgraph` partitions the addresses into chunks of 5000, runs a
`aggregate3` multicall per chunk (with retries), and writes each decoded
balance into position `chunkOffset + j` of an array prefilled with zeros.
The multicall is abstracted as `agg : List String → Option (List
CallResult)`; `none` means the chunk call still failed after all retries,
whose exception escapes the `try` and routes the whole address list to
`getFallbackBalances` (individual `provider.getBalance` queries, abstracted
as `getBalance : String → Option Nat`, `none` meaning a per-address
failure).  Chunks are dispatched in concurrency windows, but each chunk
writes a disjoint segment, so the sequential fold below computes the same
array. -/

/-- One `{ success, returnData }` entry of an `aggregate3` response. -/
structure CallResult where
  success : Bool
  returnData : String
deriving DecidableEq

/-- Value of one hexadecimal digit. -/
def hexDigitVal (c : Char) : Option Nat :=
  if '0' ≤ c ∧ c ≤ '9' then some (c.toNat - 48)
  else if 'a' ≤ c ∧ c ≤ 'f' then some (c.toNat - 87)
  else if 'A' ≤ c ∧ c ≤ 'F' then some (c.toNat - 55)
  else none

/-- Accumulate hex digits; any non-digit makes the parse fail. -/
def hexDigitsAux : Nat → List Char → Option Nat
  | acc, [] => some acc
  | acc, c :: rest =>
    match hexDigitVal c with
    | some d => hexDigitsAux (16 * acc + d) rest
    | none => none

/-- `ethers.BigNumber.from` on a `0x`-prefixed hex string; `none` models the
thrown decoding error (caught in the source, keeping the default 0). -/
def parseHexQuantity (s : String) : Option Nat :=
  match s.toList with
  | '0' :: 'x' :: rest => hexDigitsAux 0 rest
  | _ => none

/-- The per-entry decoding of source lines 1031-1039: a balance is written
only when `success` holds, `returnData.length >= 66`, and the hex decode
succeeds; otherwise the position keeps its prefilled 0. -/
def decodeReturn (r : CallResult) : Option Nat :=
  if r.success = true ∧ 66 ≤ r.returnData.length then parseHexQuantity r.returnData
  else none

/-- The written value of a response entry (0 when nothing is written). -/
def decodedVal {α : Type} (decode : α → Option Nat) (r : α) : Nat :=
  (decode r).getD 0

/-- `addresses.slice(i, i + chunkSize)` partitioning, fuelled by the list
length (sufficient whenever `1 ≤ k`). -/
def chunksGo {α : Type} (k : Nat) : Nat → List α → List (List α)
  | 0, _ => []
  | _, [] => []
  | fuel + 1, l@(_ :: _) => l.take k :: chunksGo k fuel (l.drop k)

/-- The chunk partition of `l` with chunk size `k`. -/
def listChunks {α : Type} (k : Nat) (l : List α) : List (List α) :=
  chunksGo k l.length l

/-- The inner write loop (source lines 1027-1040): for the `j`-th entry of a
chunk response, write the decoded balance at position `pos = chunkOffset +
j` when it decodes, else leave the prefilled value. -/
def segWrite {α : Type} (decode : α → Option Nat) :
    List Nat → Nat → List α → List Nat
  | bal, _, [] => bal
  | bal, pos, r :: rest =>
    segWrite decode
      (match decode r with
       | some v => bal.set pos v
       | none => bal)
      (pos + 1) rest

/-- Write every chunk response at its `chunkOffset = chunkIndex * k`. -/
def applySegs {α : Type} (decode : α → Option Nat) (k : Nat) :
    List Nat → Nat → List (List α) → List Nat
  | bal, _, [] => bal
  | bal, c, chunk :: rest => applySegs decode k (segWrite decode bal (c * k) chunk) (c + 1) rest

/-- The decoded value of an individual `provider.getBalance` query: a
per-address failure is caught and contributes `BigNumber.from(0)`. -/
def fallbackDecode (getBalance : String → Option Nat) (a : String) : Option Nat :=
  some ((getBalance a).getD 0)

/-- Embedding of `getFallbackBalances` (source lines 1063-1121): batches of
50 addresses, each result written at `batch.startIndex + j` into an array
prefilled with zeros. -/
def getFallbackBalances (getBalance : String → Option Nat)
    (addresses : List String) : List Nat :=
  applySegs (fallbackDecode getBalance) 50
    (List.replicate addresses.length 0) 0 (listChunks 50 addresses)

/-- Embedding of `getEthBalancesgraph` (source lines 964-1058): chunked
multicall writes on the success path; on any chunk's final failure, the
caught exception sends the whole list to `getFallbackBalances`. -/
def getEthBalancesgraph (agg : List String → Option (List CallResult))
    (getBalance : String → Option Nat) (addresses : List String) : List Nat :=
  match (listChunks 5000 addresses).mapM agg with
  | some chunkResults =>
    applySegs decodeReturn 5000 (List.replicate addresses.length 0) 0 chunkResults
  | none => getFallbackBalances getBalance addresses

/-! ### Result persistence and the snapshot orchestrator
(source lines 1126-1315)

`results.json` is modelled as the two-level association list
`StoredResults`; the decimal string to which `BigNumber.toString`
serializes the total is modelled as its sequence of decimal digits
(most significant first). -/

/-- Big-endian decimal digits of `n` (the decimal string written by
`result.totalWei.toString()`). -/
def natToDec (n : Nat) : List Nat :=
  (Nat.digits 10 n).reverse

/-- Reading a decimal digit string back into a number
(`ethers.BigNumber.from` on a decimal string). -/
def decToNat (ds : List Nat) : Nat :=
  ds.foldl (fun acc d => 10 * acc + d) 0

/-- The `metrics` object of the optimized pipeline. -/
structure StageMetrics where
  blockResolutionTime : Nat
  holdersResolutionTime : Nat
  balanceResolutionTime : Nat
  totalTime : Nat
deriving DecidableEq

/-- The `DetailedHolderResult` interface (source lines 1318-1334). -/
structure DetailedHolderResult where
  blockNumber : Nat
  holderCount : Nat
  totalWei : Nat
  totalEth : String
  executionTime : Nat
  metrics : StageMetrics
  method : String
  implementation : String
  error : Option String
  fromCache : Bool
deriving DecidableEq

/-- The `ResultData` record persisted to `results.json` (source lines
42-61), with `totalWei` as decimal digits. -/
structure ResultData where
  totalEth : String
  holderCount : Nat
  sampledHolders : Nat
  executionTime : Nat
  block : Nat
  implementation : String
  timestamp : String
  totalWei : List Nat
  blockNumber : Nat
  metrics : StageMetrics
  method : String
  error : Option String
  fromCache : Bool
deriving DecidableEq

/-- The persisted two-level map: implementation id → timestamp string →
result record. -/
def StoredResults : Type := List (String × List (String × ResultData))

/-- Model of `ethers.utils.formatEther`: integer and fractional wei parts
joined with a decimal point (the exact zero padding of the fraction is
immaterial to every claim; no claim inspects this string beyond the
error-path literal `"0"`). -/
def formatEther (wei : Nat) : String :=
  toString (wei / 10 ^ 18) ++ "." ++ toString (wei % 10 ^ 18)

/-- The `resultToSave` record built in `saveResultsToFile` (source lines
1147-1158): the spread of `result` with `totalWei` stringified, the save
time written into `timestamp`, and the `|| 0`-style defaults (which on
`Nat`/`String` fields are identities except for empty strings). -/
def resultToSave (implementationId saveTime : String)
    (result : DetailedHolderResult) : ResultData :=
  { totalEth := if result.totalEth = "" then "0" else result.totalEth
    holderCount := result.holderCount
    sampledHolders := result.holderCount
    executionTime := result.executionTime
    block := result.blockNumber
    implementation :=
      if result.implementation = "" then implementationId else result.implementation
    timestamp := saveTime
    totalWei := natToDec result.totalWei
    blockNumber := result.blockNumber
    metrics := result.metrics
    method := result.method
    error := result.error
    fromCache := result.fromCache }

/-- Embedding of `saveResultsToFile` (source lines 1126-1168): upsert the
record under `results[implementationId][timestamp]` and write the store
back. -/
def saveResultsToFile (store : StoredResults) (implementationId timestampKey : String)
    (rec : ResultData) : StoredResults :=
  upsert store implementationId
    (upsert ((alookup store implementationId).getD []) timestampKey rec)

/-- Embedding of `getPreviousResults` (source lines 1173-1183): the parsed
store (or an empty object when the file is missing). -/
def getPreviousResults (store : StoredResults) : StoredResults := store

/-- `previousResults?.['optimizedSolution']?.[timestamp]`-style lookup. -/
def cachedLookup (store : StoredResults) (implementationId timestampKey : String) :
    Option ResultData :=
  (alookup (getPreviousResults store) implementationId).bind
    (fun inner => alookup inner timestampKey)

/-- The conversion of a cached record back into a `DetailedHolderResult`
(source lines 1204-1218). -/
def cachedToResult (c : ResultData) : DetailedHolderResult :=
  { blockNumber := if c.blockNumber ≠ 0 then c.blockNumber else c.block
    holderCount := c.holderCount
    totalWei := decToNat c.totalWei
    totalEth := if c.totalEth = "" then "0" else c.totalEth
    executionTime := c.executionTime
    metrics := c.metrics
    method := if c.method = "" then "Cached result" else c.method
    implementation :=
      if c.implementation = "" then "optimizedSolution" else c.implementation
    error := c.error
    fromCache := true }

/-- The zero-valued result returned by the orchestrator's `catch` (source
lines 1303-1313). -/
def errorResult (msg : String) (m : StageMetrics) : DetailedHolderResult :=
  { blockNumber := 0
    holderCount := 0
    totalWei := 0
    totalEth := "0"
    executionTime := m.totalTime
    metrics := m
    method := "Error in pipeline execution"
    implementation := "optimizedSolution"
    error := some msg
    fromCache := false }

/-- The environment of one orchestrator run: the persisted store, the three
stage outcomes, the wall-clock durations the stages would record, and the
ISO save time. -/
structure PipelineEnv where
  store : StoredResults
  resolveBlock : Except String Nat
  getHolders : Nat → Except String (List String)
  getBalances : List String → Nat → Except String (List Nat)
  blockMs : Nat
  holdersMs : Nat
  balancesMs : Nat
  totalMs : Nat
  saveTime : String

/-- Embedding of `getTotalEthValueOfHolders` (source lines 1190-1315): serve
from the persisted result if present; otherwise resolve the block, get the
holders (an empty holder list throws), get the balances, reduce-sum them,
persist the successful result.  Any stage error is caught and produces the
zero-valued error result, which is not persisted.  The second component is
the record passed to `saveResultsToFile`, if any. -/
def getTotalEthValueOfHolders (env : PipelineEnv) (timestamp : String) :
    DetailedHolderResult × Option ResultData :=
  match cachedLookup env.store "optimizedSolution" timestamp with
  | some c => (cachedToResult c, none)
  | none =>
    match env.resolveBlock with
    | .error e =>
      (errorResult ("Block resolution failed: " ++ e) ⟨0, 0, 0, env.totalMs⟩, none)
    | .ok blockNumber =>
      match env.getHolders blockNumber with
      | .error e =>
        (errorResult ("Holders retrieval failed: " ++ e)
          ⟨env.blockMs, 0, 0, env.totalMs⟩, none)
      | .ok holders =>
        if holders.length = 0 then
          (errorResult "No holders found - cannot proceed with balance retrieval"
            ⟨env.blockMs, env.holdersMs, 0, env.totalMs⟩, none)
        else
          match env.getBalances holders blockNumber with
          | .error e =>
            (errorResult ("Balance retrieval failed: " ++ e)
              ⟨env.blockMs, env.holdersMs, 0, env.totalMs⟩, none)
          | .ok balances =>
            let totalWei := totalWeiReduce balances
            let result : DetailedHolderResult :=
              { blockNumber := blockNumber
                holderCount := holders.length
                totalWei := totalWei
                totalEth := formatEther totalWei
                executionTime := env.totalMs
                metrics := ⟨env.blockMs, env.holdersMs, env.balancesMs, env.totalMs⟩
                method := "Optimized pipeline with enhanced caching"
                implementation := "optimizedSolution"
                error := none
                fromCache := false }
            (result, some (resultToSave "optimizedSolution" env.saveTime result))

/-! ### Concrete oracle environments used by witnesses and counterexamples -/

/-- A linear block-time table: block `b` has timestamp `10 * b + 10`. -/
def c2ts : Nat → Nat := fun b => 10 * b + 10

/-- A GraphQL page listing one token whose owner is the null address (as an
indexer reports for a burned token). -/
def zeroOwnerPage : List Token :=
  [⟨"1", "0x0000000000000000000000000000000000000000"⟩]

/-- A subgraph that reports the null address as an owner. -/
def zeroOwnerFetch : String → Nat → GraphResp := fun _ _ => .ok zeroOwnerPage

/-- A subgraph whose every request throws. -/
def failGraphFetch : String → Nat → GraphResp := fun _ _ => .netError

/-- An Etherscan feed answering every transfer-page request with a
non-`'1'` status. -/
def badStatusEtherscan : Nat → EtherscanResp := fun _ => .badStatus

/-- An Etherscan feed whose every transfer-page request throws. -/
def throwingEtherscan : Nat → EtherscanResp := fun _ => .thrown

/-- Transfer pages of a six-page history: pages 1-5 each hold one mint
(block 1, tokens `t1`…`t5` to owners `a1`…`a5`), page 6 moves `t1` from
`a1` to `b` at block 2, later pages are empty. -/
def c5Pages : Nat → List Transfer := fun p =>
  if p = 1 then [⟨1, "t1", "0x0000000000000000000000000000000000000000", "a1"⟩]
  else if p = 2 then [⟨1, "t2", "0x0000000000000000000000000000000000000000", "a2"⟩]
  else if p = 3 then [⟨1, "t3", "0x0000000000000000000000000000000000000000", "a3"⟩]
  else if p = 4 then [⟨1, "t4", "0x0000000000000000000000000000000000000000", "a4"⟩]
  else if p = 5 then [⟨1, "t5", "0x0000000000000000000000000000000000000000", "a5"⟩]
  else if p = 6 then [⟨2, "t1", "a1", "b"⟩]
  else []

/-- The Etherscan feed delivering `c5Pages`. -/
def c5Fetch : Nat → EtherscanResp := fun p => .ok (c5Pages p)

/-- The complete six-page history of `c5Pages`. -/
def c5CompleteHistory : List Transfer := joinPages c5Pages 1 6

/-- A five-page history of five mints (blocks 1, all to owner `holder`),
empty from page 6 on. -/
def c5WitnessPages : Nat → List Transfer := fun p =>
  if 1 ≤ p ∧ p ≤ 5 then
    [⟨1, toString p, "0x0000000000000000000000000000000000000000", "holder"⟩]
  else []

/-- The Etherscan feed delivering `c5WitnessPages`. -/
def c5WitnessFetch : Nat → EtherscanResp := fun p => .ok (c5WitnessPages p)

/-- A multicall whose single chunk response marks the address as failed. -/
def c1Agg : List String → Option (List CallResult) :=
  fun _ => some [⟨false, ""⟩]

/-- A multicall that still fails after all retries, for every chunk. -/
def failAgg : List String → Option (List CallResult) := fun _ => none

/-- A provider whose individual balance queries all fail. -/
def noBalance : String → Option Nat := fun _ => none

/-- A pipeline environment whose block resolution stage fails. -/
def c8Env : PipelineEnv :=
  { store := []
    resolveBlock := .error "network down"
    getHolders := fun _ => .ok []
    getBalances := fun _ _ => .ok []
    blockMs := 1
    holdersMs := 2
    balancesMs := 3
    totalMs := 9
    saveTime := "2022-05-01T00:00:00.000Z" }

/-- Loop invariant lemma for `binarySearchLoop` over an always-successful
monotone provider: the returned block is the least block whose timestamp
reaches the target.  Invariants: `target ≤ ts result`, `high ≤ result ≤
high + 1`, everything strictly below `low` is below the target, the
`lastMid` guard can only fire in states where `low ≥ result` already holds,
and the remaining interval fits in the remaining fuel. -/
theorem binarySearchLoop_found (ts : Nat → Nat) (hmono : Monotone ts)
    (target : Nat) :
    ∀ fuel low high result lastMid,
      target ≤ ts result →
      high ≤ result →
      result ≤ high + 1 →
      (∀ b, b < low → ts b < target) →
      (low ≤ high → (low + high) / 2 = lastMid → result ≤ low) →
      (high + 2 ≤ low + 2 ^ fuel ∨
        (high ≤ low ∧ result ≤ low ∧ (low + high) / 2 = lastMid)) →
      target ≤ ts (binarySearchLoop (foundOracle ts) target fuel low high result lastMid 0) ∧
      (∀ b, b < binarySearchLoop (foundOracle ts) target fuel low high result lastMid 0 →
        ts b < target) ∧
      binarySearchLoop (foundOracle ts) target fuel low high result lastMid 0 ≤ result := by
  intro fuel
  induction fuel with
  | zero =>
    intro low high result lastMid hres hhr hhr2 hpre _hmid hfuel
    have hlr : result ≤ low := by rcases hfuel with h | h <;> omega
    simp only [binarySearchLoop]
    exact ⟨hres, fun b hb => hpre b (lt_of_lt_of_le hb hlr), le_refl _⟩
  | succ fuel ih =>
    intro low high result lastMid hres hhr hhr2 hpre hmid hfuel
    by_cases hlh : low ≤ high
    · simp only [binarySearchLoop, if_pos hlh]
      by_cases hm : (low + high) / 2 = lastMid
      · simp only [if_pos hm]
        have hlr : result ≤ low := hmid hlh hm
        exact ⟨hres, fun b hb => hpre b (lt_of_lt_of_le hb hlr), le_refl _⟩
      · simp only [if_neg hm, foundOracle]
        have hmidlb : low ≤ (low + high) / 2 := by omega
        have hmidub : (low + high) / 2 ≤ high := by omega
        have hpow : (2 : Nat) ^ (fuel + 1) = 2 * 2 ^ fuel := by
          rw [pow_succ]; ring
        have hfuel' : high + 2 ≤ low + 2 ^ (fuel + 1) := by
          rcases hfuel with h | h
          · exact h
          · omega
        by_cases hts : ts ((low + high) / 2) < target
        · simp only [if_pos hts]
          have h1 := ih ((low + high) / 2 + 1) high result ((low + high) / 2)
            hres hhr hhr2
            (fun b hb => lt_of_le_of_lt (hmono (by omega : b ≤ (low + high) / 2)) hts)
            (by intro h1 h2; omega)
            (by left; omega)
          exact h1
        · simp only [if_neg hts]
          push_neg at hts
          have h1 := ih low ((low + high) / 2 - 1) ((low + high) / 2) ((low + high) / 2)
            hts (by omega) (by omega) hpre
            (by intro h1 h2; omega)
            (by by_cases hz : (low + high) / 2 = 0
                · right; omega
                · left; omega)
          refine ⟨h1.1, h1.2.1, le_trans h1.2.2 (by omega)⟩
    · simp only [binarySearchLoop, if_neg hlh]
      have hlr : result ≤ low := by omega
      exact ⟨hres, fun b hb => hpre b (lt_of_lt_of_le hb hlr), le_refl _⟩

/-! ### Association list lemmas -/

theorem alookup_append_single {β : Type} (m : List (String × β)) (k k' : String) (v : β) :
    alookup (m ++ [(k, v)]) k' =
      match alookup m k' with
      | some x => some x
      | none => if k = k' then some v else none := by
  induction m with
  | nil => simp [alookup]
  | cons p rest ih =>
    obtain ⟨k0, v0⟩ := p
    by_cases h : k0 = k'
    · simp [alookup, h]
    · simp only [List.cons_append, alookup, if_neg h]
      exact ih

theorem alookup_cons {β : Type} (k0 : String) (v0 : β) (rest : List (String × β))
    (k : String) :
    alookup ((k0, v0) :: rest) k = if k0 = k then some v0 else alookup rest k := rfl

theorem aupdate_cons {β : Type} (k0 : String) (v0 : β) (rest : List (String × β))
    (k : String) (f : β → β) :
    aupdate ((k0, v0) :: rest) k f =
      (if k0 = k then (k0, f v0) else (k0, v0)) :: aupdate rest k f := rfl

theorem alookup_aupdate_self {β : Type} (m : List (String × β)) (k : String)
    (f : β → β) : alookup (aupdate m k f) k = (alookup m k).map f := by
  induction m with
  | nil => simp [alookup, aupdate]
  | cons p rest ih =>
    obtain ⟨k0, v0⟩ := p
    rw [aupdate_cons, alookup_cons]
    by_cases h : k0 = k
    · rw [if_pos h, alookup_cons, if_pos h, if_pos h]
      simp
    · rw [if_neg h, alookup_cons, if_neg h, if_neg h]
      exact ih

theorem alookup_aupdate_ne {β : Type} (m : List (String × β)) (k k' : String)
    (f : β → β) (h : k ≠ k') : alookup (aupdate m k f) k' = alookup m k' := by
  induction m with
  | nil => simp [alookup, aupdate]
  | cons p rest ih =>
    obtain ⟨k0, v0⟩ := p
    rw [aupdate_cons, alookup_cons]
    by_cases hp : k0 = k
    · have hp' : k0 ≠ k' := by rw [hp]; exact h
      rw [if_pos hp, alookup_cons, if_neg hp', if_neg hp']
      exact ih
    · rw [if_neg hp, alookup_cons]
      by_cases hp' : k0 = k'
      · rw [if_pos hp', if_pos hp']
      · rw [if_neg hp', if_neg hp']
        exact ih

theorem aremove_cons {β : Type} (k0 : String) (v0 : β) (rest : List (String × β))
    (k : String) :
    aremove ((k0, v0) :: rest) k =
      if k0 = k then aremove rest k else (k0, v0) :: aremove rest k := by
  rw [aremove, List.filter_cons]
  by_cases h : k0 = k
  · simp [aremove, h]
  · simp [aremove, h]

theorem alookup_aremove_self {β : Type} (m : List (String × β)) (k : String) :
    alookup (aremove m k) k = none := by
  induction m with
  | nil => simp [alookup, aremove]
  | cons p rest ih =>
    obtain ⟨k0, v0⟩ := p
    rw [aremove_cons]
    by_cases h : k0 = k
    · rw [if_pos h]
      exact ih
    · rw [if_neg h, alookup_cons, if_neg h]
      exact ih

theorem alookup_aremove_ne {β : Type} (m : List (String × β)) (k k' : String)
    (h : k ≠ k') : alookup (aremove m k) k' = alookup m k' := by
  induction m with
  | nil => simp [alookup, aremove]
  | cons p rest ih =>
    obtain ⟨k0, v0⟩ := p
    rw [aremove_cons, alookup_cons]
    by_cases hp : k0 = k
    · have hp' : k0 ≠ k' := by rw [hp]; exact h
      rw [if_pos hp, if_neg hp']
      exact ih
    · rw [if_neg hp, alookup_cons]
      by_cases hp' : k0 = k'
      · rw [if_pos hp', if_pos hp']
      · rw [if_neg hp', if_neg hp']
        exact ih

theorem update_map_cons {β : Type} (k0 : String) (v0 : β) (rest : List (String × β))
    (k : String) (v : β) :
    ((k0, v0) :: rest).map (fun p => if p.1 = k then (p.1, v) else p) =
      (if k0 = k then (k0, v) else (k0, v0)) ::
        rest.map (fun p => if p.1 = k then (p.1, v) else p) := rfl

theorem alookup_map_update_self {β : Type} (m : List (String × β)) (k : String) (v : β)
    (hs : (alookup m k).isSome) :
    alookup (m.map (fun p => if p.1 = k then (p.1, v) else p)) k = some v := by
  induction m with
  | nil => simp [alookup] at hs
  | cons p rest ih =>
    obtain ⟨k0, v0⟩ := p
    rw [update_map_cons]
    by_cases hp : k0 = k
    · rw [if_pos hp, alookup_cons, if_pos hp]
    · rw [if_neg hp, alookup_cons, if_neg hp]
      rw [alookup_cons, if_neg hp] at hs
      exact ih hs

theorem alookup_map_update_ne {β : Type} (m : List (String × β)) (k k' : String) (v : β)
    (h : k ≠ k') :
    alookup (m.map (fun p => if p.1 = k then (p.1, v) else p)) k' = alookup m k' := by
  induction m with
  | nil => simp [alookup]
  | cons p rest ih =>
    obtain ⟨k0, v0⟩ := p
    rw [update_map_cons, alookup_cons]
    by_cases hp : k0 = k
    · have hp' : k0 ≠ k' := by rw [hp]; exact h
      rw [if_pos hp, alookup_cons, if_neg hp', if_neg hp']
      exact ih
    · rw [if_neg hp, alookup_cons]
      by_cases hp' : k0 = k'
      · rw [if_pos hp', if_pos hp']
      · rw [if_neg hp', if_neg hp']
        exact ih

theorem alookup_upsert_self {β : Type} (m : List (String × β)) (k : String) (v : β) :
    alookup (upsert m k v) k = some v := by
  unfold upsert
  by_cases h : (alookup m k).isSome
  · rw [if_pos h]
    exact alookup_map_update_self m k v h
  · rw [if_neg h, alookup_append_single]
    simp only [Option.not_isSome_iff_eq_none] at h
    simp [h]

theorem alookup_upsert_ne {β : Type} (m : List (String × β)) (k k' : String) (v : β)
    (h : k ≠ k') : alookup (upsert m k v) k' = alookup m k' := by
  unfold upsert
  by_cases hs : (alookup m k).isSome
  · rw [if_pos hs]
    exact alookup_map_update_ne m k k' v h
  · rw [if_neg hs, alookup_append_single]
    cases hm : alookup m k' with
    | some x => simp
    | none => simp [if_neg h]

/-! ### Decimal digit round trip -/

theorem decToNat_reverse (l : List Nat) :
    decToNat l.reverse = Nat.ofDigits 10 l := by
  induction l with
  | nil => simp [decToNat, Nat.ofDigits]
  | cons d rest ih =>
    simp only [List.reverse_cons, decToNat, List.foldl_append, List.foldl_cons,
      List.foldl_nil, Nat.ofDigits_cons]
    have : (rest.reverse).foldl (fun acc d => 10 * acc + d) 0 = decToNat rest.reverse := rfl
    rw [this, ih]
    ring

theorem decToNat_natToDec (n : Nat) : decToNat (natToDec n) = n := by
  unfold natToDec
  rw [decToNat_reverse]
  exact_mod_cast Nat.ofDigits_digits 10 n

/-! ### Set operation lemmas -/

theorem mem_setAdd (s : List String) (x y : String) :
    y ∈ setAdd s x ↔ y ∈ s ∨ y = x := by
  unfold setAdd
  by_cases h : x ∈ s
  · rw [if_pos h]
    constructor
    · exact Or.inl
    · rintro (hy | rfl)
      · exact hy
      · exact h
  · rw [if_neg h]
    simp [List.mem_append]

theorem setAdd_ne_nil (s : List String) (x : String) : setAdd s x ≠ [] := by
  unfold setAdd
  by_cases h : x ∈ s
  · rw [if_pos h]
    intro hs
    rw [hs] at h
    exact absurd h (List.not_mem_nil x)
  · rw [if_neg h]
    simp

theorem mem_setDelete (s : List String) (x y : String) :
    y ∈ setDelete s x ↔ y ∈ s ∧ y ≠ x := by
  simp [setDelete, List.mem_filter]

theorem mem_keys_iff_isSome {β : Type} (m : List (String × β)) (a : String) :
    a ∈ m.map Prod.fst ↔ (alookup m a).isSome := by
  induction m with
  | nil => simp [alookup]
  | cons p rest ih =>
    obtain ⟨k0, v0⟩ := p
    rw [alookup_cons]
    by_cases h : k0 = a
    · simp [h]
    · simp only [List.map_cons, List.mem_cons, if_neg h]
      constructor
      · rintro (rfl | hm)
        · exact absurd rfl h
        · exact ih.1 hm
      · intro hs
        exact Or.inr (ih.2 hs)

/-! ### Transfer replay lemmas -/

theorem replayPage_eq (blockNumber : Nat) (m : List (String × List String))
    (l : List Transfer) :
    replayPage blockNumber m l =
      (replayList blockNumber m l,
        l.all (fun t => decide (t.blockNumber ≤ blockNumber))) := by
  induction l generalizing m with
  | nil => simp [replayPage, replayList]
  | cons t rest ih =>
    by_cases h : blockNumber < t.blockNumber
    · simp [replayPage, replayList, if_pos h, List.all_cons]
      omega
    · simp only [replayPage, replayList, if_neg h, List.all_cons]
      rw [ih]
      congr 1
      have : decide (t.blockNumber ≤ blockNumber) = true := by
        simp; omega
      rw [this, Bool.true_and]

theorem replayList_append_all (blockNumber : Nat) (m : List (String × List String))
    (l1 l2 : List Transfer)
    (h : l1.all (fun t => decide (t.blockNumber ≤ blockNumber)) = true) :
    replayList blockNumber m (l1 ++ l2) =
      replayList blockNumber (replayList blockNumber m l1) l2 := by
  induction l1 generalizing m with
  | nil => simp [replayList]
  | cons t rest ih =>
    simp only [List.all_cons, Bool.and_eq_true, decide_eq_true_eq] at h
    have hn : ¬ blockNumber < t.blockNumber := by omega
    simp only [List.cons_append, replayList, if_neg hn]
    exact ih _ (by simpa using h.2)

theorem replayList_append_stop (blockNumber : Nat) (m : List (String × List String))
    (l1 l2 : List Transfer)
    (h : l1.all (fun t => decide (t.blockNumber ≤ blockNumber)) = false) :
    replayList blockNumber m (l1 ++ l2) = replayList blockNumber m l1 := by
  induction l1 generalizing m with
  | nil => simp at h
  | cons t rest ih =>
    by_cases ht : blockNumber < t.blockNumber
    · simp [replayList, if_pos ht]
    · simp only [List.all_cons, Bool.and_eq_true] at h
      have ht' : decide (t.blockNumber ≤ blockNumber) = true := by simp; omega
      simp only [List.cons_append, replayList, if_neg ht]
      refine ih _ ?_
      cases hr : rest.all (fun t => decide (t.blockNumber ≤ blockNumber)) with
      | true => rw [ht', hr] at h; simp at h
      | false => rfl

theorem joinPages_nil (pages : Nat → List Transfer) (page fuel : Nat)
    (h : ∀ q, page ≤ q → q < page + fuel → pages q = []) :
    joinPages pages page fuel = [] := by
  induction fuel generalizing page with
  | zero => rfl
  | succ fuel ih =>
    simp only [joinPages]
    rw [h page le_rfl (by omega), List.nil_append]
    exact ih (page + 1) (fun q h1 h2 => h q (by omega) (by omega))

theorem transfersLoop_eq (fetch : Nat → EtherscanResp) (pages : Nat → List Transfer)
    (blockNumber : Nat) :
    ∀ fuel page m,
      (∀ q, page ≤ q → q < page + fuel → fetch q = .ok (pages q)) →
      (∀ q q', page ≤ q → q ≤ q' → q' < page + fuel → pages q = [] → pages q' = []) →
      transfersLoop fetch blockNumber m fuel page =
        some (replayList blockNumber m (joinPages pages page fuel)) := by
  intro fuel
  induction fuel with
  | zero => intro page m _ _; simp [transfersLoop, joinPages, replayList]
  | succ fuel ih =>
    intro page m hf hm
    have hpage : fetch page = .ok (pages page) := hf page le_rfl (by omega)
    simp only [transfersLoop, hpage, joinPages]
    by_cases hempty : (pages page).length = 0
    · rw [if_pos hempty]
      have : pages page = [] := List.length_eq_zero.mp hempty
      rw [this, List.nil_append,
        joinPages_nil pages (page + 1) fuel
          (fun q h1 h2 => hm page q (le_refl page) (by omega) (by omega) this)]
      simp [replayList]
    · rw [if_neg hempty, replayPage_eq]
      by_cases hall : (pages page).all (fun t => decide (t.blockNumber ≤ blockNumber)) = true
      · simp only [hall, if_true]
        rw [ih (page + 1) _ (fun q h1 h2 => hf q (by omega) (by omega))
          (fun q q' h1 h2 h3 => hm q q' (by omega) h2 (by omega))]
        rw [replayList_append_all blockNumber m _ _ hall]
      · have hall' : (pages page).all (fun t => decide (t.blockNumber ≤ blockNumber)) = false :=
          Bool.not_eq_true _ ▸ (Bool.eq_false_iff.mpr hall)
        simp only [hall', Bool.false_eq_true, if_false]
        rw [replayList_append_stop blockNumber m _ _ hall']

theorem replayList_sorted_filter (blockNumber : Nat) :
    ∀ (l : List Transfer) (m : List (String × List String)),
      l.Pairwise (fun a b => a.blockNumber ≤ b.blockNumber) →
      replayList blockNumber m l =
        (l.filter (fun t => decide (t.blockNumber ≤ blockNumber))).foldl processTransfer m := by
  intro l
  induction l with
  | nil => intro m _; simp [replayList]
  | cons t rest ih =>
    intro m hs
    rw [List.pairwise_cons] at hs
    by_cases h : blockNumber < t.blockNumber
    · simp only [replayList, if_pos h]
      have : rest.filter (fun t => decide (t.blockNumber ≤ blockNumber)) = [] := by
        rw [List.filter_eq_nil_iff]
        intro u hu
        have := hs.1 u hu
        simp only [decide_eq_true_eq]
        omega
      rw [List.filter_cons]
      have hd : decide (t.blockNumber ≤ blockNumber) = false := by
        simp only [decide_eq_false_iff_not]
        omega
      rw [hd]
      simp only [Bool.false_eq_true, if_false, this, List.foldl_nil]
    · simp only [replayList, if_neg h]
      rw [List.filter_cons]
      have hd : decide (t.blockNumber ≤ blockNumber) = true := by simp; omega
      rw [hd]
      simp only [if_true, List.foldl_cons]
      exact ih _ hs.2

theorem lastToOf_nil (tid : String) : lastToOf [] tid = none := rfl

theorem lastToOf_cons (t : Transfer) (r : List Transfer) (tid : String) :
    lastToOf (t :: r) tid =
      (lastToOf r tid).or
        (if t.tokenID = tid then some (toLowerString t.toAddress) else none) := by
  unfold lastToOf
  rw [List.filter_cons]
  by_cases pt : t.tokenID = tid
  · have hd : decide (t.tokenID = tid) = true := by simpa using pt
    rw [hd, if_pos rfl, List.getLast?_cons]
    cases hfr : (r.filter fun u => decide (u.tokenID = tid)).getLast? with
    | none => simp [hfr, pt]
    | some u => simp [hfr]
  · have hd : decide (t.tokenID = tid) = false := by simpa using pt
    rw [hd]
    simp only [Bool.false_eq_true, if_false, if_neg pt]
    cases hfr : (r.filter fun u => decide (u.tokenID = tid)).getLast? <;> simp [hfr]

theorem alookup_ownersAfter (l : List Transfer) :
    ∀ (seen : List (String × String)) (tid : String),
      alookup (ownersAfter seen l) tid = (lastToOf l tid).or (alookup seen tid) := by
  induction l with
  | nil => intro seen tid; simp [ownersAfter, lastToOf, alookup]
  | cons t r ih =>
    intro seen tid
    simp only [ownersAfter]
    rw [ih, lastToOf_cons]
    cases hr : lastToOf r tid with
    | some o => rfl
    | none =>
      simp only [Option.none_or]
      by_cases pt : t.tokenID = tid
      · rw [if_pos pt]
        simp only [upsertOwner]
        rw [pt, alookup_upsert_self]
        rfl
      · rw [if_neg pt]
        simp only [upsertOwner, Option.none_or]
        rw [alookup_upsert_ne _ _ _ _ pt]

theorem lastToOf_mem_tokenIDs (l : List Transfer) (tid a : String)
    (h : lastToOf l tid = some a) : tid ∈ l.map Transfer.tokenID := by
  unfold lastToOf at h
  cases hfr : (l.filter fun u => decide (u.tokenID = tid)).getLast? with
  | none => rw [hfr] at h; simp at h
  | some u =>
    have hu : u ∈ l.filter fun u => decide (u.tokenID = tid) :=
      List.mem_of_mem_getLast? hfr
    rw [List.mem_filter] at hu
    have : u.tokenID = tid := by simpa using hu.2
    rw [← this]
    exact List.mem_map_of_mem Transfer.tokenID hu.1

/-- Membership description of the specification-side replay holders. -/
theorem mem_specReplayHolders (l : List Transfer) (block : Nat) (a : String) :
    a ∈ specReplayHolders l block ↔
      a ≠ zeroAddress ∧
        ∃ tid, lastToOf (l.filter (fun t => decide (t.blockNumber ≤ block))) tid = some a := by
  unfold specReplayHolders
  rw [List.mem_filter]
  simp only [decide_eq_true_eq, List.mem_dedup, List.mem_filterMap]
  constructor
  · rintro ⟨⟨tid, _htid, hlast⟩, hz⟩
    exact ⟨hz, tid, hlast⟩
  · rintro ⟨hz, tid, hlast⟩
    refine ⟨⟨tid, ?_, hlast⟩, hz⟩
    exact lastToOf_mem_tokenIDs _ tid a hlast

/-! ### Ownership map invariant -/

theorem removeFromSender_zero (m : List (String × List String)) (tid : String) :
    removeFromSender m zeroAddress tid = m := by
  unfold removeFromSender
  rw [if_neg (not_not_intro rfl)]

theorem alookup_removeFromSender_ne (m : List (String × List String))
    (fromA tid a : String) (h : fromA ≠ a) :
    alookup (removeFromSender m fromA tid) a = alookup m a := by
  simp only [removeFromSender]
  by_cases h1 : fromA ≠ zeroAddress
  · rw [if_pos h1]
    by_cases h2 : (alookup m fromA).isSome
    · rw [if_pos h2]
      by_cases h3 :
          (alookup (aupdate m fromA fun s => setDelete s tid) fromA).getD [] = []
      · rw [if_pos h3, alookup_aremove_ne _ _ _ h, alookup_aupdate_ne _ _ _ _ h]
      · rw [if_neg h3, alookup_aupdate_ne _ _ _ _ h]
    · rw [if_neg h2]
  · rw [if_neg h1]

theorem alookup_removeFromSender_self (m : List (String × List String))
    (fromA tid : String) (s : List String) (hz : fromA ≠ zeroAddress)
    (hs : alookup m fromA = some s) :
    alookup (removeFromSender m fromA tid) fromA =
      if setDelete s tid = [] then none else some (setDelete s tid) := by
  simp only [removeFromSender, if_pos hz]
  rw [if_pos (by rw [hs]; rfl : (alookup m fromA).isSome)]
  have hup : alookup (aupdate m fromA fun s => setDelete s tid) fromA =
      some (setDelete s tid) := by
    rw [alookup_aupdate_self, hs]
    rfl
  rw [hup]
  simp only [Option.getD_some]
  by_cases h3 : setDelete s tid = []
  · rw [if_pos h3, if_pos h3, alookup_aremove_self]
  · rw [if_neg h3, if_neg h3, hup]

theorem alookup_addToRecipient_self (m : List (String × List String))
    (toA tid : String) :
    alookup (addToRecipient m toA tid) toA =
      some (setAdd ((alookup m toA).getD []) tid) := by
  unfold addToRecipient
  by_cases h : (alookup m toA).isSome
  · rw [if_pos h, alookup_aupdate_self]
    obtain ⟨s, hs⟩ := Option.isSome_iff_exists.mp h
    rw [hs]
    rfl
  · rw [if_neg h, alookup_aupdate_self, alookup_append_single]
    have hn : alookup m toA = none := Option.not_isSome_iff_eq_none.mp h
    rw [hn]
    simp

theorem alookup_addToRecipient_ne (m : List (String × List String))
    (toA tid a : String) (h : toA ≠ a) :
    alookup (addToRecipient m toA tid) a = alookup m a := by
  unfold addToRecipient
  by_cases hs : (alookup m toA).isSome
  · rw [if_pos hs, alookup_aupdate_ne _ _ _ _ h]
  · rw [if_neg hs, alookup_aupdate_ne _ _ _ _ h, alookup_append_single]
    cases hm : alookup m a with
    | some x => rfl
    | none => rw [if_neg h]

/-- One replay step preserves the ownership-map/latest-recipient
correspondence, provided the transfer is consistent with the recipients
recorded so far (its sender is the token's current owner, or the null
address for a fresh token). -/
theorem processTransfer_invariant (m : List (String × List String))
    (seen : List (String × String)) (t : Transfer)
    (hinv : ReplayInvariant m seen)
    (hwf : toLowerString t.fromAddress = (alookup seen t.tokenID).getD zeroAddress) :
    ReplayInvariant (processTransfer m t)
      (upsertOwner seen t.tokenID (toLowerString t.toAddress)) := by
  obtain ⟨hne, hmem⟩ := hinv
  unfold processTransfer
  by_cases hfz : toLowerString t.fromAddress = zeroAddress
  · -- mint (or post-burn) case: the sender block is skipped
    rw [hfz, removeFromSender_zero]
    have hseen0 : alookup seen t.tokenID = none ∨
        alookup seen t.tokenID = some zeroAddress := by
      cases hs : alookup seen t.tokenID with
      | none => exact Or.inl rfl
      | some x =>
        right
        rw [hs] at hwf
        simp only [Option.getD_some] at hwf
        rw [hfz] at hwf
        rw [hwf]
    constructor
    · intro o s hoz hlk
      by_cases ho : toLowerString t.toAddress = o
      · rw [← ho, alookup_addToRecipient_self] at hlk
        cases hlk
        exact setAdd_ne_nil _ _
      · rw [alookup_addToRecipient_ne _ _ _ _ ho] at hlk
        exact hne o s hoz hlk
    · intro tid o hoz
      by_cases ht : t.tokenID = tid
      · rw [← ht, upsertOwner, alookup_upsert_self]
        by_cases ho : toLowerString t.toAddress = o
        · rw [← ho, alookup_addToRecipient_self]
          simp only [Option.getD_some]
          rw [mem_setAdd]
          simp [ho]
        · rw [alookup_addToRecipient_ne _ _ _ _ ho]
          have hL : ¬ t.tokenID ∈ (alookup m o).getD [] := by
            rw [hmem t.tokenID o hoz]
            rcases hseen0 with h0 | h0 <;> rw [h0] <;> intro hc
            · exact Option.noConfusion hc
            · rw [Option.some_inj] at hc
              exact hoz hc.symm
          have hR : ¬ (some (toLowerString t.toAddress) = some o) := by
            intro hc
            rw [Option.some_inj] at hc
            exact ho hc
          constructor
          · intro h; exact absurd h hL
          · intro h; exact absurd h hR
      · rw [upsertOwner, alookup_upsert_ne _ _ _ _ ht]
        by_cases ho : toLowerString t.toAddress = o
        · rw [← ho, alookup_addToRecipient_self]
          simp only [Option.getD_some]
          rw [mem_setAdd]
          have : ¬ tid = t.tokenID := fun hc => ht hc.symm
          rw [ho]
          simp only [this, or_false]
          exact hmem tid o hoz
        · rw [alookup_addToRecipient_ne _ _ _ _ ho]
          exact hmem tid o hoz
  · -- genuine transfer: the sender owns the token
    have hseenf : alookup seen t.tokenID = some (toLowerString t.fromAddress) := by
      cases hs : alookup seen t.tokenID with
      | none =>
        rw [hs] at hwf
        simp only [Option.getD_none] at hwf
        exact absurd hwf hfz
      | some x =>
        rw [hs] at hwf
        simp only [Option.getD_some] at hwf
        rw [hwf]
    have hmf0 : t.tokenID ∈ (alookup m (toLowerString t.fromAddress)).getD [] :=
      (hmem t.tokenID (toLowerString t.fromAddress) hfz).mpr hseenf
    obtain ⟨sf, hmf⟩ : ∃ sf, alookup m (toLowerString t.fromAddress) = some sf := by
      cases hs : alookup m (toLowerString t.fromAddress) with
      | none => rw [hs] at hmf0; simp at hmf0
      | some sf => exact ⟨sf, rfl⟩
    rw [hmf] at hmf0
    simp only [Option.getD_some] at hmf0
    have hrmself := alookup_removeFromSender_self m (toLowerString t.fromAddress)
      t.tokenID sf hfz hmf
    have hrmmem : ∀ tid',
        tid' ∈ (alookup (removeFromSender m (toLowerString t.fromAddress) t.tokenID)
          (toLowerString t.fromAddress)).getD [] ↔
          tid' ∈ setDelete sf t.tokenID := by
      intro tid'
      rw [hrmself]
      by_cases hdel : setDelete sf t.tokenID = []
      · rw [if_pos hdel, hdel]
        simp
      · rw [if_neg hdel]
        simp
    constructor
    · intro o s hoz hlk
      by_cases ho : toLowerString t.toAddress = o
      · rw [← ho, alookup_addToRecipient_self] at hlk
        cases hlk
        exact setAdd_ne_nil _ _
      · rw [alookup_addToRecipient_ne _ _ _ _ ho] at hlk
        by_cases hf : toLowerString t.fromAddress = o
        · rw [← hf, hrmself] at hlk
          by_cases hdel : setDelete sf t.tokenID = []
          · rw [if_pos hdel] at hlk
            exact Option.noConfusion hlk
          · rw [if_neg hdel] at hlk
            cases hlk
            exact hdel
        · rw [alookup_removeFromSender_ne _ _ _ _ hf] at hlk
          exact hne o s hoz hlk
    · intro tid o hoz
      have hRM : ∀ o', o' ≠ zeroAddress →
          (tid ∈ (alookup (removeFromSender m (toLowerString t.fromAddress) t.tokenID)
            o').getD [] ↔
            (alookup seen tid = some o' ∧ ¬(t.tokenID = tid))) := by
        intro o' hoz'
        by_cases hf : toLowerString t.fromAddress = o'
        · rw [← hf, hrmmem, mem_setDelete]
          constructor
          · rintro ⟨hin, hne'⟩
            refine ⟨(hmem tid _ hfz).mp (by rw [hmf]; exact hin), ?_⟩
            intro hc
            exact hne' hc.symm
          · rintro ⟨hin, hnid⟩
            refine ⟨?_, fun hc => hnid hc.symm⟩
            have hx := (hmem tid _ hfz).mpr hin
            rw [hmf] at hx
            exact hx
        · rw [alookup_removeFromSender_ne _ _ _ _ hf]
          rw [hmem tid o' hoz']
          constructor
          · intro h
            refine ⟨h, ?_⟩
            intro hc
            rw [← hc] at h
            rw [hseenf] at h
            rw [Option.some_inj] at h
            exact hf h
          · exact And.left
      by_cases ht : t.tokenID = tid
      · rw [← ht, upsertOwner, alookup_upsert_self]
        by_cases ho : toLowerString t.toAddress = o
        · rw [← ho, alookup_addToRecipient_self]
          simp only [Option.getD_some]
          rw [mem_setAdd]
          simp [ho]
        · rw [alookup_addToRecipient_ne _ _ _ _ ho]
          have hL := hRM o hoz
          rw [← ht] at hL
          constructor
          · intro h
            exact absurd rfl ((hL.mp h).2)
          · intro h
            rw [Option.some_inj] at h
            exact absurd h ho
      · rw [upsertOwner, alookup_upsert_ne _ _ _ _ ht]
        by_cases ho : toLowerString t.toAddress = o
        · rw [← ho, alookup_addToRecipient_self]
          simp only [Option.getD_some]
          rw [mem_setAdd]
          have hne2 : ¬ tid = t.tokenID := fun hc => ht hc.symm
          simp only [hne2, or_false]
          rw [hRM (toLowerString t.toAddress) (by rw [ho]; exact hoz), ho]
          constructor
          · exact And.left
          · intro h
            exact ⟨h, fun hc => ht hc⟩
        · rw [alookup_addToRecipient_ne _ _ _ _ ho, hRM o hoz]
          constructor
          · exact And.left
          · intro h
            exact ⟨h, fun hc => ht hc⟩

/-- The invariant holds along any consistent replayed history. -/
theorem foldl_processTransfer_invariant (l : List Transfer) :
    ∀ (m : List (String × List String)) (seen : List (String × String)),
      ReplayInvariant m seen →
      wellFormedFrom seen l = true →
      ReplayInvariant (l.foldl processTransfer m) (ownersAfter seen l) := by
  induction l with
  | nil => intro m seen hinv _; exact hinv
  | cons t rest ih =>
    intro m seen hinv hwf
    simp only [wellFormedFrom, Bool.and_eq_true, decide_eq_true_eq] at hwf
    simp only [List.foldl_cons, ownersAfter]
    exact ih _ _ (processTransfer_invariant m seen t hinv hwf.1) hwf.2

/-- The base invariant: empty map, no recipients. -/
theorem replayInvariant_nil : ReplayInvariant [] [] := by
  constructor
  · intro o s _ hlk
    exact Option.noConfusion hlk
  · intro tid o _
    simp [alookup]

/-- Holders extracted from an invariant-respecting map are exactly the
non-null latest recipients. -/
theorem holders_membership (m : List (String × List String))
    (seen : List (String × String)) (hinv : ReplayInvariant m seen) (a : String) :
    a ∈ (m.map Prod.fst).filter (fun a => decide (a ≠ zeroAddress)) ↔
      a ≠ zeroAddress ∧ ∃ tid, alookup seen tid = some a := by
  rw [List.mem_filter]
  simp only [decide_eq_true_eq]
  constructor
  · rintro ⟨hk, hz⟩
    refine ⟨hz, ?_⟩
    rw [mem_keys_iff_isSome] at hk
    obtain ⟨s, hs⟩ := Option.isSome_iff_exists.mp hk
    have hsne := hinv.1 a s hz hs
    obtain ⟨tid, htid⟩ := List.exists_mem_of_ne_nil s hsne
    exact ⟨tid, (hinv.2 tid a hz).mp (by rw [hs]; exact htid)⟩
  · rintro ⟨hz, tid, htid⟩
    have hin := (hinv.2 tid a hz).mpr htid
    refine ⟨?_, hz⟩
    rw [mem_keys_iff_isSome]
    cases hs : alookup m a with
    | none => rw [hs] at hin; simp at hin
    | some s => rfl

/-- On a five-page, all-successful, block-sorted, consistent transfer feed,
the transfer-log replay returns exactly the specification-side holder set
of the concatenated fetched history. -/
theorem getHoldersFromTokenTransfers_eq_spec (fetch : Nat → EtherscanResp)
    (pages : Nat → List Transfer) (blockNumber : Nat)
    (hfetch : ∀ p, 1 ≤ p → p ≤ 5 → fetch p = .ok (pages p))
    (hmono : ∀ q q', 1 ≤ q → q ≤ q' → q' ≤ 5 → pages q = [] → pages q' = [])
    (hsorted : (joinPages pages 1 5).Pairwise
      (fun a b => a.blockNumber ≤ b.blockNumber))
    (hwf : WellFormedHistory ((joinPages pages 1 5).filter
      (fun t => decide (t.blockNumber ≤ blockNumber))))
    (a : String) :
    a ∈ getHoldersFromTokenTransfers fetch blockNumber ↔
      a ∈ specReplayHolders (joinPages pages 1 5) blockNumber := by
  have hloop := transfersLoop_eq fetch pages blockNumber 5 1 []
    (fun q h1 h2 => hfetch q h1 (by omega))
    (fun q q' h1 h2 h3 => hmono q q' h1 h2 (by omega))
  unfold getHoldersFromTokenTransfers
  rw [hloop, replayList_sorted_filter blockNumber _ [] hsorted]
  have hinv := foldl_processTransfer_invariant
    ((joinPages pages 1 5).filter (fun t => decide (t.blockNumber ≤ blockNumber)))
    [] [] replayInvariant_nil hwf
  rw [holders_membership _ _ hinv a, mem_specReplayHolders]
  refine and_congr_right (fun _ => exists_congr (fun tid => ?_))
  rw [alookup_ownersAfter]
  simp [alookup]

/-! ### Chunked write lemmas for the balance aggregator -/

theorem segWrite_fill {α : Type} (decode : α → Option Nat) :
    ∀ (resp : List α) (done : List Nat) (z : Nat), resp.length ≤ z →
      segWrite decode (done ++ List.replicate z 0) done.length resp =
        (done ++ resp.map (decodedVal decode)) ++ List.replicate (z - resp.length) 0 := by
  intro resp
  induction resp with
  | nil =>
    intro done z _
    simp [segWrite]
  | cons r rest ih =>
    intro done z h
    simp only [List.length_cons] at h
    obtain ⟨z', rfl⟩ : ∃ z', z = z' + 1 := ⟨z - 1, by omega⟩
    have hrep : List.replicate (z' + 1) (0 : Nat) = 0 :: List.replicate z' 0 := rfl
    have hstep : ∀ w : Nat,
        (done ++ List.replicate (z' + 1) 0).set done.length w =
          (done ++ [w]) ++ List.replicate z' 0 := by
      intro w
      rw [List.set_append, if_neg (by omega)]
      rw [Nat.sub_self, hrep, List.set_cons_zero, List.append_assoc]
      rfl
    have hnoset :
        done ++ List.replicate (z' + 1) (0 : Nat) =
          (done ++ [0]) ++ List.replicate z' 0 := by
      rw [hrep, List.append_assoc]
      rfl
    have hlen : ∀ w : Nat, (done ++ [w]).length = done.length + 1 := by
      intro w
      simp
    cases hd : decode r with
    | some v =>
      simp only [segWrite, hd]
      rw [hstep v, ← hlen v]
      rw [ih (done ++ [v]) z' (by omega)]
      have hdv : decodedVal decode r = v := by simp [decodedVal, hd]
      have hzz : z' + 1 - (rest.length + 1) = z' - rest.length := by omega
      simp only [List.map_cons, hdv, List.length_cons, hzz, List.append_assoc,
        List.cons_append, List.singleton_append, List.nil_append]
    | none =>
      simp only [segWrite, hd]
      rw [hnoset, ← hlen 0]
      rw [ih (done ++ [0]) z' (by omega)]
      have hdv : decodedVal decode r = 0 := by simp [decodedVal, hd]
      have hzz : z' + 1 - (rest.length + 1) = z' - rest.length := by omega
      simp only [List.map_cons, hdv, List.length_cons, hzz, List.append_assoc,
        List.cons_append, List.singleton_append, List.nil_append]

theorem chunksGo_fuel {α : Type} (k : Nat) (hk : 1 ≤ k) :
    ∀ fuel₁ fuel₂ (l : List α), l.length ≤ fuel₁ → l.length ≤ fuel₂ →
      chunksGo k fuel₁ l = chunksGo k fuel₂ l := by
  intro fuel₁
  induction fuel₁ with
  | zero =>
    intro fuel₂ l h1 _
    have : l = [] := List.length_eq_zero.mp (by omega)
    subst this
    cases fuel₂ <;> rfl
  | succ fuel₁ ih =>
    intro fuel₂ l h1 h2
    cases l with
    | nil => cases fuel₂ <;> rfl
    | cons a rest =>
      cases fuel₂ with
      | zero => simp at h2
      | succ fuel₂ =>
        simp only [chunksGo]
        congr 1
        have hd1 : ((a :: rest).drop k).length ≤ fuel₁ := by
          rw [List.length_drop]
          simp only [List.length_cons] at h1 ⊢
          omega
        have hd2 : ((a :: rest).drop k).length ≤ fuel₂ := by
          rw [List.length_drop]
          simp only [List.length_cons] at h2 ⊢
          omega
        exact ih fuel₂ ((a :: rest).drop k) hd1 hd2

theorem listChunks_cons_eq {α : Type} (k : Nat) (hk : 1 ≤ k) (l : List α)
    (hl : l ≠ []) :
    listChunks k l = l.take k :: listChunks k (l.drop k) := by
  unfold listChunks
  cases l with
  | nil => exact absurd rfl hl
  | cons a rest =>
    simp only [chunksGo, List.length_cons]
    congr 1
    exact chunksGo_fuel k hk _ _ _ (by simp [List.length_drop]; omega) le_rfl

theorem listChunks_nil {α : Type} (k : Nat) : listChunks k ([] : List α) = [] := rfl

theorem listChunks_eq_nil_iff {α : Type} (k : Nat) (l : List α) :
    listChunks k l = [] ↔ l = [] := by
  constructor
  · intro h
    cases l with
    | nil => rfl
    | cons a rest =>
      unfold listChunks at h
      simp only [List.length_cons, chunksGo] at h
      exact absurd h (List.cons_ne_nil _ _)
  · intro h
    rw [h]
    rfl

theorem applySegs_fill {α β : Type} (decode : α → Option Nat) (k : Nat) (hk : 1 ≤ k) :
    ∀ (resps : List (List α)) (rem : List β) (c : Nat) (done : List Nat),
      List.Forall₂ (fun (ch : List β) (r : List α) => r.length = ch.length)
        (listChunks k rem) resps →
      done.length = c * k →
      applySegs decode k (done ++ List.replicate rem.length 0) c resps =
        done ++ (resps.map (List.map (decodedVal decode))).flatten := by
  intro resps
  induction resps with
  | nil =>
    intro rem c done hall _
    have hrem : rem = [] :=
      (listChunks_eq_nil_iff k rem).mp (List.forall₂_nil_right_iff.mp hall)
    subst hrem
    simp [applySegs]
  | cons resp rest ih =>
    intro rem c done hall hdone
    have hremne : rem ≠ [] := by
      intro h
      subst h
      rw [listChunks_nil] at hall
      cases hall
    rw [listChunks_cons_eq k hk rem hremne, List.forall₂_cons] at hall
    obtain ⟨hlen, hall'⟩ := hall
    have hlentake : (rem.take k).length = min k rem.length := by
      simp [List.length_take]
    simp only [applySegs]
    rw [show c * k = done.length from hdone.symm]
    rw [segWrite_fill decode resp done rem.length (by omega)]
    cases rest with
    | nil =>
      have hdropnil : rem.drop k = [] :=
        (listChunks_eq_nil_iff k (rem.drop k)).mp (List.forall₂_nil_right_iff.mp hall')
      have hlrem : rem.length ≤ k := by
        have hld := List.length_drop k rem
        rw [hdropnil] at hld
        simp only [List.length_nil] at hld
        omega
      have hresp : resp.length = rem.length := by omega
      simp only [applySegs, hresp, Nat.sub_self, List.replicate_zero,
        List.append_nil, List.map_cons, List.map_nil, List.flatten_cons,
        List.flatten_nil, List.append_nil]
    | cons resp2 rest2 =>
      have hdropne : rem.drop k ≠ [] := by
        intro h
        rw [(listChunks_eq_nil_iff k (rem.drop k)).mpr h] at hall'
        cases hall'
      have hlrem : k < rem.length := by
        by_contra hcon
        push_neg at hcon
        exact hdropne (List.drop_eq_nil_of_le hcon)
      have hresp : resp.length = k := by omega
      have hih := ih (rem.drop k) (c + 1) (done ++ resp.map (decodedVal decode))
        hall'
        (by
          simp only [List.length_append, List.length_map, hresp, hdone]
          ring)
      rw [List.length_drop] at hih
      have hzr : rem.length - resp.length = rem.length - k := by omega
      rw [hzr]
      rw [hih]
      simp [List.flatten_cons, List.append_assoc]

theorem segWrite_length {α : Type} (decode : α → Option Nat) :
    ∀ (resp : List α) (bal : List Nat) (pos : Nat),
      (segWrite decode bal pos resp).length = bal.length := by
  intro resp
  induction resp with
  | nil => intro bal pos; rfl
  | cons r rest ih =>
    intro bal pos
    simp only [segWrite]
    cases hd : decode r with
    | some v => rw [ih, List.length_set]
    | none => rw [ih]

theorem applySegs_length {α : Type} (decode : α → Option Nat) (k : Nat) :
    ∀ (resps : List (List α)) (bal : List Nat) (c : Nat),
      (applySegs decode k bal c resps).length = bal.length := by
  intro resps
  induction resps with
  | nil => intro bal c; rfl
  | cons resp rest ih =>
    intro bal c
    simp only [applySegs]
    rw [ih, segWrite_length]

theorem listChunks_join {α : Type} (k : Nat) (hk : 1 ≤ k) (l : List α) :
    (listChunks k l).flatten = l := by
  suffices h : ∀ n (l : List α), l.length ≤ n → (listChunks k l).flatten = l by
    exact h l.length l le_rfl
  intro n
  induction n with
  | zero =>
    intro l hl
    have : l = [] := List.length_eq_zero.mp (by omega)
    rw [this]
    rfl
  | succ n ih =>
    intro l hl
    cases hemp : l with
    | nil => rfl
    | cons a rest =>
      rw [← hemp]
      rw [listChunks_cons_eq k hk l (by rw [hemp]; simp)]
      rw [List.flatten_cons]
      rw [ih (l.drop k) (by
        rw [List.length_drop]
        rw [hemp] at hl ⊢
        simp at hl ⊢
        omega)]
      exact List.take_append_drop k l

/-- The first-tier chunk partition, decoded positionally. -/
theorem getEthBalancesgraph_join (agg : List String → Option (List CallResult))
    (getBalance : String → Option Nat) (addresses : List String)
    (resps : List (List CallResult))
    (hsome : (listChunks 5000 addresses).mapM agg = some resps)
    (hlen : List.Forall₂ (fun (ch : List String) (r : List CallResult) =>
      r.length = ch.length) (listChunks 5000 addresses) resps) :
    getEthBalancesgraph agg getBalance addresses =
      (resps.map (List.map (decodedVal decodeReturn))).flatten := by
  unfold getEthBalancesgraph
  rw [hsome]
  have := applySegs_fill decodeReturn 5000 (by omega) resps addresses 0 [] hlen (by simp)
  simpa using this

/-- The fallback tier is the positional map of the per-address queries,
failures contributing zero. -/
theorem getFallbackBalances_eq_map (getBalance : String → Option Nat)
    (addresses : List String) :
    getFallbackBalances getBalance addresses =
      addresses.map (fun a => (getBalance a).getD 0) := by
  unfold getFallbackBalances
  have hall : List.Forall₂ (fun (ch : List String) (r : List String) =>
      r.length = ch.length) (listChunks 50 addresses) (listChunks 50 addresses) := by
    exact List.forall₂_same.mpr (fun x _ => rfl)
  have := applySegs_fill (fallbackDecode getBalance) 50 (by omega)
    (listChunks 50 addresses) addresses 0 [] hall (by simp)
  simp only [List.nil_append] at this
  rw [this]
  have hjoin : ((listChunks 50 addresses).map
      (List.map (decodedVal (fallbackDecode getBalance)))).flatten =
      ((listChunks 50 addresses).flatten).map (decodedVal (fallbackDecode getBalance)) := by
    rw [List.map_flatten]
  rw [hjoin, listChunks_join 50 (by omega)]
  rfl

/-! ### Remaining helper lemmas -/

theorem totalWeiReduce_aux (l : List Nat) :
    ∀ n : Nat, l.foldl (fun sum balance => sum + balance) n = n + l.sum := by
  induction l with
  | nil => intro n; simp [List.foldl]
  | cons x xs ih =>
    intro n
    simp only [List.foldl, List.sum_cons, ih]
    omega

theorem totalWeiReduce_eq_sum (l : List Nat) : totalWeiReduce l = l.sum := by
  simpa [totalWeiReduce] using totalWeiReduce_aux l 0

theorem transfersLoop_succ (fetch : Nat → EtherscanResp) (blockNumber : Nat)
    (m : List (String × List String)) (fuel page : Nat) :
    transfersLoop fetch blockNumber m (fuel + 1) page =
      match fetch page with
      | .thrown => none
      | .badStatus => some m
      | .ok transfers =>
        if transfers.length = 0 then some m
        else
          let pr := replayPage blockNumber m transfers
          if pr.2 then transfersLoop fetch blockNumber pr.1 fuel (page + 1)
          else some pr.1 := rfl

theorem getEthBalancesgraph_length (agg : List String → Option (List CallResult))
    (getBalance : String → Option Nat) (addresses : List String) :
    (getEthBalancesgraph agg getBalance addresses).length = addresses.length := by
  unfold getEthBalancesgraph
  cases hm : (listChunks 5000 addresses).mapM agg with
  | some resps =>
    rw [applySegs_length, List.length_replicate]
  | none =>
    rw [getFallbackBalances_eq_map, List.length_map]

theorem getHoldersFromTokenTransfers_no_zero (tfetch : Nat → EtherscanResp)
    (blockNumber : Nat) :
    zeroAddress ∉ getHoldersFromTokenTransfers tfetch blockNumber := by
  unfold getHoldersFromTokenTransfers
  cases transfersLoop tfetch blockNumber [] 5 1 with
  | some m =>
    intro hmem
    rw [List.mem_filter] at hmem
    simp only [decide_eq_true_eq] at hmem
    exact hmem.2 rfl
  | none => decide

/-! ### Claim theorems -/

/-- C1: for every oracle environment, address list and block, the
reduce-summation of `getTotalEthValueOfHolders` applied to the balances
array produced by `getEthBalancesgraph` equals the exact integer sum of
the per-address balances obtained — the arithmetic is arbitrary-precision
(`Nat`, modelling `ethers.BigNumber`) with no floating-point accumulator
and no bound on the entries or the total (in particular beyond `2^53`);
under a positionally aligned successful multicall it equals the sum of
all decoded per-address balances. -/
theorem claim_C1 (agg : List String → Option (List CallResult))
    (getBalance : String → Option Nat) (addresses : List String)
    (resps : List (List CallResult))
    (hsome : (listChunks 5000 addresses).mapM agg = some resps)
    (hlen : List.Forall₂ (fun (ch : List String) (r : List CallResult) =>
      r.length = ch.length) (listChunks 5000 addresses) resps) :
    totalWeiReduce (getEthBalancesgraph agg getBalance addresses) =
      (getEthBalancesgraph agg getBalance addresses).sum ∧
    totalWeiReduce (getEthBalancesgraph agg getBalance addresses) =
      ((resps.map (List.map (decodedVal decodeReturn))).flatten).sum := by
  refine ⟨totalWeiReduce_eq_sum _, ?_⟩
  rw [getEthBalancesgraph_join agg getBalance addresses resps hsome hlen,
    totalWeiReduce_eq_sum]

/-- C1 (witness): the theorem applied to a concrete one-address environment
whose single multicall entry reports failure. -/
theorem claim_C1_witness :
    totalWeiReduce (getEthBalancesgraph c1Agg noBalance ["a"]) =
      (getEthBalancesgraph c1Agg noBalance ["a"]).sum :=
  (claim_C1 c1Agg noBalance ["a"] [[⟨false, ""⟩]] (by decide)
    (List.Forall₂.cons (by decide) List.Forall₂.nil)).1

/-- C2 (counterexample): on the block table `ts b = 10 b + 10` and target
timestamp 15, `binarySearchBlock(0, 2, 15)` returns block 1, whose
timestamp 20 is strictly greater than the requested 15 — without hitting
the iteration cap — refuting the claim that the returned block's
timestamp is ≤ the requested one.  (The loop keeps the smallest probed
block whose timestamp is ≥ the target.) -/
theorem claim_C2_counterexample :
    binarySearchBlock (foundOracle c2ts) 0 2 15 = 1 ∧
    ¬ c2ts (binarySearchBlock (foundOracle c2ts) 0 2 15) ≤ 15 := by
  decide

/-- C2 (amended): over a monotone always-successful block-timestamp table,
when the bracket `[low, high]` contains a block with timestamp ≥ t (and
is large enough not to trip the initial `lastMid = 0` guard, everything
below `low` being before t, and small enough for the 20-iteration
budget), `binarySearchBlock` returns the MINIMAL block whose timestamp is
greater than or equal to the requested timestamp: its timestamp is ≥ t
and every smaller block's timestamp is < t — the reverse of the `≤ t`
bound stated in the claim. -/
theorem claim_C2 (ts : Nat → Nat) (hmono : Monotone ts) (low high target : Nat)
    (hquirk : 2 ≤ low + high) (hex : target ≤ ts high)
    (hpre : ∀ b, b < low → ts b < target) (hsize : high + 2 ≤ low + 2 ^ 20) :
    target ≤ ts (binarySearchBlock (foundOracle ts) low high target) ∧
    (∀ b, b < binarySearchBlock (foundOracle ts) low high target → ts b < target) ∧
    binarySearchBlock (foundOracle ts) low high target ≤ high := by
  unfold binarySearchBlock
  exact binarySearchLoop_found ts hmono target 20 low high high 0 hex le_rfl
    (by omega) hpre (by intro h1 h2; omega) (Or.inl hsize)

/-- C2 (witness): the amended theorem applied to the concrete table
`c2ts b = 10 b + 10` with bracket `[0, 2]` and target 15. -/
theorem claim_C2_witness :
    15 ≤ c2ts (binarySearchBlock (foundOracle c2ts) 0 2 15) :=
  (claim_C2 c2ts (fun a b hab => by simp only [c2ts]; omega) 0 2 15
    (by norm_num) (by decide) (fun b hb => absurd hb (Nat.not_lt_zero b))
    (by norm_num)).1

/-- C3 (counterexample): when the indexed GraphQL query reports a token
owned by the null address, the primary path of `getBAYCHoldersAtBlock`
adds it without filtering, so the returned holder set contains the null
address — refuting the claim for the indexed-query primary path. -/
theorem claim_C3_counterexample :
    zeroAddress ∈ getBAYCHoldersAtBlock zeroOwnerFetch badStatusEtherscan 10000 5 123 := by
  decide

/-- C3 (amended): the transfer-log replay fallback (and the demo fallback
inside it) never returns the null address, and consequently neither does
`getBAYCHoldersAtBlock` whenever it takes the fallback path; the
indexed-query primary path performs no such filtering (see the
counterexample). -/
theorem claim_C3 (fetch : String → Nat → GraphResp) (tfetch : Nat → EtherscanResp)
    (pageSize fuel blockNumber : Nat)
    (hg : graphHolders fetch pageSize fuel = none) :
    zeroAddress ∉ getHoldersFromTokenTransfers tfetch blockNumber ∧
    zeroAddress ∉ getBAYCHoldersAtBlock fetch tfetch pageSize fuel blockNumber := by
  refine ⟨getHoldersFromTokenTransfers_no_zero tfetch blockNumber, ?_⟩
  unfold getBAYCHoldersAtBlock
  rw [hg]
  exact getHoldersFromTokenTransfers_no_zero tfetch blockNumber

/-- C3 (witness): the amended theorem at a concrete environment whose
GraphQL requests all throw. -/
theorem claim_C3_witness :
    zeroAddress ∉ getHoldersFromTokenTransfers badStatusEtherscan 123 ∧
    zeroAddress ∉ getBAYCHoldersAtBlock failGraphFetch badStatusEtherscan 10000 5 123 :=
  claim_C3 failGraphFetch badStatusEtherscan 10000 5 123 (by decide)

/-- C4 (counterexample): when both the indexed query (every GraphQL request
throws) and the transfer-log fallback (every Etherscan request throws)
fail, `getBAYCHoldersAtBlock` does not raise any error — it returns the
hardcoded `FALLBACK_DEMO_DATA.sampleHolders`, a synthetic result,
refuting both the only-if error contract and the no-synthetic-result
clause. -/
theorem claim_C4_counterexample :
    getBAYCHoldersAtBlock failGraphFetch throwingEtherscan 10000 5 0 = sampleHolders := by
  decide

/-- C4 (amended): whenever the whole GraphQL path fails and the first
Etherscan transfer request throws, `getBAYCHoldersAtBlock` returns the
built-in demo sample holders instead of raising an `OwnershipError`; the
function never propagates an error to its caller. -/
theorem claim_C4 (fetch : String → Nat → GraphResp) (tfetch : Nat → EtherscanResp)
    (pageSize fuel blockNumber : Nat)
    (hg : graphHolders fetch pageSize fuel = none)
    (ht : tfetch 1 = .thrown) :
    getBAYCHoldersAtBlock fetch tfetch pageSize fuel blockNumber = sampleHolders := by
  unfold getBAYCHoldersAtBlock
  rw [hg]
  unfold getHoldersFromTokenTransfers
  rw [show (5 : Nat) = 4 + 1 from rfl, transfersLoop_succ, ht]

/-- C4 (witness): the amended theorem at a concrete all-failing
environment. -/
theorem claim_C4_witness :
    getBAYCHoldersAtBlock failGraphFetch throwingEtherscan 500 3 7 = sampleHolders :=
  claim_C4 failGraphFetch throwingEtherscan 500 3 7 (by decide) rfl

/-- C5 (counterexample): a consistent six-page history whose sixth page
moves token `t1` from `a1` to `b` below the target block.  The complete
replay holds `b` as a holder, but `getHoldersFromTokenTransfers` stops
after five pages (`page <= 5`), so its result misses `b` — refuting the
claim that the returned set reflects the complete transfer history up to
the target block. -/
theorem claim_C5_counterexample :
    ("b" ∈ specReplayHolders c5CompleteHistory 10) ∧
    ("b" ∉ getHoldersFromTokenTransfers c5Fetch 10) := by
  decide

/-- C5 (amended): over an all-successful Etherscan feed, the transfer-log
replay reconstructs ownership from the AT MOST FIVE fetched pages: for a
block-sorted, ERC-721-consistent fetched history, the returned holder set
is exactly the specification-side replay (latest recipient per token id,
null address excluded) of the concatenation of pages 1-5 truncated at the
target block — not of the complete history when that history extends
beyond five pages. -/
theorem claim_C5 (fetch : Nat → EtherscanResp) (pages : Nat → List Transfer)
    (blockNumber : Nat)
    (hfetch : ∀ p, 1 ≤ p → p ≤ 5 → fetch p = .ok (pages p))
    (hmono : ∀ q q', 1 ≤ q → q ≤ q' → q' ≤ 5 → pages q = [] → pages q' = [])
    (hsorted : (joinPages pages 1 5).Pairwise
      (fun a b => a.blockNumber ≤ b.blockNumber))
    (hwf : WellFormedHistory ((joinPages pages 1 5).filter
      (fun t => decide (t.blockNumber ≤ blockNumber))))
    (a : String) :
    a ∈ getHoldersFromTokenTransfers fetch blockNumber ↔
      a ∈ specReplayHolders (joinPages pages 1 5) blockNumber :=
  getHoldersFromTokenTransfers_eq_spec fetch pages blockNumber hfetch hmono
    hsorted hwf a

/-- C5 (witness): the amended theorem at a concrete five-page history of
five mints to `holder`. -/
theorem claim_C5_witness :
    ("holder" ∈ getHoldersFromTokenTransfers c5WitnessFetch 10) ↔
      ("holder" ∈ specReplayHolders (joinPages c5WitnessPages 1 5) 10) :=
  claim_C5 c5WitnessFetch c5WitnessPages 10
    (fun _ _ _ => rfl)
    (fun q q' h1 h2 h3 hq => by
      exfalso
      unfold c5WitnessPages at hq
      rw [if_pos ⟨h1, by omega⟩] at hq
      cases hq)
    (by decide)
    (by unfold WellFormedHistory; decide)
    "holder"

/-- C6: the balance aggregation never fails outright: a per-address failure
indicator in a chunk result contributes exactly zero without aborting the
chunk, on whole-aggregate failure (a chunk's multicall still failing after
all retries) the computation degrades to the individual-query fallback
tier, and that tier always returns a positionally complete total (failed
individual queries contributing zero). -/
theorem claim_C6 (agg : List String → Option (List CallResult))
    (getBalance : String → Option Nat) (addresses : List String) :
    (∀ r : CallResult, r.success = false → decodedVal decodeReturn r = 0) ∧
    ((listChunks 5000 addresses).mapM agg = none →
      getEthBalancesgraph agg getBalance addresses =
        getFallbackBalances getBalance addresses) ∧
    getFallbackBalances getBalance addresses =
      addresses.map (fun a => (getBalance a).getD 0) := by
  refine ⟨?_, ?_, getFallbackBalances_eq_map getBalance addresses⟩
  · intro r hr
    simp [decodedVal, decodeReturn, hr]
  · intro hnone
    unfold getEthBalancesgraph
    rw [hnone]

/-- C6 (witness): the degradation clause at a concrete environment whose
multicall always fails. -/
theorem claim_C6_witness :
    getEthBalancesgraph failAgg noBalance ["a"] = getFallbackBalances noBalance ["a"] :=
  (claim_C6 failAgg noBalance ["a"]).2.1 (by decide)

/-- C7 (counterexample): a successful fetch at the currently suggested size
7500 leaves the suggestion unchanged at 7500, strictly below the cap
10000 — refuting the claim that the suggested size strictly increases
after consecutive successful fetches up to the cap (the code only grows
the suggestion when the fetched size was strictly below it). -/
theorem claim_C7_counterexample :
    updateOptimalGraphQLBatchSize true 7500 7500 = 7500 ∧ (7500 : Nat) < 10000 := by
  decide

/-- C7 (amended): a success at the suggested size leaves the suggestion
unchanged; a success below the suggestion never pushes it above the cap
10000; a failure sets it to `max 500 ⌊0.75·size⌋` — never below the floor
500, strictly decreasing from a suggestion above the floor and pinned to
500 from a suggestion at or below it. -/
theorem claim_C7 (size opt : Nat) :
    updateOptimalGraphQLBatchSize true opt opt = opt ∧
    (size < opt → updateOptimalGraphQLBatchSize true size opt ≤ 10000) ∧
    500 ≤ updateOptimalGraphQLBatchSize false size opt ∧
    (500 < opt → updateOptimalGraphQLBatchSize false opt opt < opt) ∧
    (opt ≤ 500 → updateOptimalGraphQLBatchSize false opt opt = 500) := by
  unfold updateOptimalGraphQLBatchSize
  refine ⟨by simp, ?_, ?_, ?_, ?_⟩
  · intro h
    rw [if_pos rfl, if_pos h]
    exact min_le_left _ _
  · rw [if_neg (by simp)]
    exact le_max_left _ _
  · intro h
    rw [if_neg (by simp)]
    have h34 : opt * 3 / 4 < opt := by omega
    exact max_lt h h34
  · intro h
    rw [if_neg (by simp)]
    have h34 : opt * 3 / 4 ≤ 500 := by omega
    exact max_eq_left h34

/-- C7 (witness): a failure at suggestion 600 strictly decreases it. -/
theorem claim_C7_witness : updateOptimalGraphQLBatchSize false 600 600 < 600 :=
  (claim_C7 600 600).2.2.2.1 (by norm_num)

/-- C8 (counterexample): with a failing block-resolution stage and an empty
result store, the orchestrator returns the zero-valued error result but
does NOT persist it — `saveResultsToFile` is never called on the error
path — refuting the claim that the error result is persisted to the
result store. -/
theorem claim_C8_counterexample :
    (getTotalEthValueOfHolders c8Env "1651363200").1.error =
      some "Block resolution failed: network down" ∧
    (getTotalEthValueOfHolders c8Env "1651363200").2 = none := by
  constructor <;> rfl

/-- C8 (amended): on a cache miss, whenever any pipeline stage fails the
orchestrator returns the zero-valued result (block 0, holder count 0,
total 0, `totalEth = "0"`) carrying the error message, records the total
duration in the metrics, and does NOT persist the error result. -/
theorem claim_C8 (env : PipelineEnv) (timestamp : String)
    (hmiss : cachedLookup env.store "optimizedSolution" timestamp = none)
    (hfail : ((getTotalEthValueOfHolders env timestamp).1).error.isSome = true) :
    (getTotalEthValueOfHolders env timestamp).1.blockNumber = 0 ∧
    (getTotalEthValueOfHolders env timestamp).1.holderCount = 0 ∧
    (getTotalEthValueOfHolders env timestamp).1.totalWei = 0 ∧
    (getTotalEthValueOfHolders env timestamp).1.totalEth = "0" ∧
    (getTotalEthValueOfHolders env timestamp).1.metrics.totalTime = env.totalMs ∧
    (getTotalEthValueOfHolders env timestamp).2 = none := by
  unfold getTotalEthValueOfHolders at hfail ⊢
  rw [hmiss] at hfail ⊢
  cases hres : env.resolveBlock with
  | error e =>
    simp [hres, errorResult]
  | ok blockNumber =>
    simp only [hres] at hfail ⊢
    cases hhold : env.getHolders blockNumber with
    | error e =>
      simp [hhold, errorResult]
    | ok holders =>
      simp only [hhold] at hfail ⊢
      by_cases hlen : holders.length = 0
      · rw [if_pos hlen] at hfail ⊢
        simp [errorResult]
      · rw [if_neg hlen] at hfail ⊢
        cases hbal : env.getBalances holders blockNumber with
        | error e =>
          simp [hbal, errorResult]
        | ok balances =>
          simp only [hbal] at hfail
          simp at hfail

/-- C8 (witness): the amended theorem at the concrete failing environment. -/
theorem claim_C8_witness :
    (getTotalEthValueOfHolders c8Env "1").1.totalWei = 0 ∧
    (getTotalEthValueOfHolders c8Env "1").2 = none := by
  have h := claim_C8 c8Env "1" rfl rfl
  exact ⟨h.2.2.1, h.2.2.2.2.2⟩

/-- C9: persisting a result under `(implementationId, timestamp)` via
`saveResultsToFile` and reloading via `getPreviousResults` returns exactly
the serialized record (so every subsequent cached call serves it
identically), and the decimal-digit string stored for the big-integer
total reads back to exactly the original total — no precision loss, for
all totals including those beyond `2^53`. -/
theorem claim_C9 (store : StoredResults)
    (implementationId timestampKey saveTime : String)
    (result : DetailedHolderResult) :
    cachedLookup (saveResultsToFile store implementationId timestampKey
        (resultToSave implementationId saveTime result)) implementationId timestampKey =
      some (resultToSave implementationId saveTime result) ∧
    decToNat (resultToSave implementationId saveTime result).totalWei =
      result.totalWei := by
  constructor
  · unfold cachedLookup getPreviousResults saveResultsToFile
    rw [alookup_upsert_self]
    show alookup (upsert ((alookup store implementationId).getD []) timestampKey
      (resultToSave implementationId saveTime result)) timestampKey = _
    rw [alookup_upsert_self]
  · exact decToNat_natToDec result.totalWei

/-- C10: the balances array has exactly the input length under every oracle
environment; the fallback tier is positionally the input list mapped
through the per-address query with failures as zero; the primary tier
under a positionally aligned successful multicall is the concatenation of
the decoded chunk responses in input order; and a per-address failure
indicator decodes to exactly zero. -/
theorem claim_C10 (agg : List String → Option (List CallResult))
    (getBalance : String → Option Nat) (addresses : List String)
    (resps : List (List CallResult))
    (hsome : (listChunks 5000 addresses).mapM agg = some resps)
    (hlen : List.Forall₂ (fun (ch : List String) (r : List CallResult) =>
      r.length = ch.length) (listChunks 5000 addresses) resps) :
    (getEthBalancesgraph agg getBalance addresses).length = addresses.length ∧
    getFallbackBalances getBalance addresses =
      addresses.map (fun a => (getBalance a).getD 0) ∧
    getEthBalancesgraph agg getBalance addresses =
      (resps.map (List.map (decodedVal decodeReturn))).flatten ∧
    (∀ r : CallResult, r.success = false → decodedVal decodeReturn r = 0) := by
  refine ⟨getEthBalancesgraph_length agg getBalance addresses,
    getFallbackBalances_eq_map getBalance addresses,
    getEthBalancesgraph_join agg getBalance addresses resps hsome hlen, ?_⟩
  intro r hr
  simp [decodedVal, decodeReturn, hr]

/-- C10 (witness): the length clause at a concrete one-address
environment. -/
theorem claim_C10_witness :
    (getEthBalancesgraph c1Agg noBalance ["a"]).length =
      (["a"] : List String).length :=
  (claim_C10 c1Agg noBalance ["a"] [[⟨false, ""⟩]] (by decide)
    (List.Forall₂.cons (by decide) List.Forall₂.nil)).1

end BaycEthSum
